import Mathlib

/-!
Verification of the puzzle-state engine of the Starcast Chromecast receiver
game (`src/starcast_game.js`).

The grid of puzzle pieces (`this.pieces_`, a list of rows of pieces) is
modelled by the `flipped` flag of each piece only: a grid is a list of lists
of booleans.  Grid mutation in the JavaScript source happens cell by cell
inside `for` loops; an out-of-range array access throws a `TypeError` before
the current cell is toggled, which the embedding models by threading the grid
through `flipSeq`, an `Except` computation whose error value carries the grid
exactly as it was at the moment of the throw.
-/

namespace Starcast

/-- A grid is the matrix of `flipped` flags of `this.pieces_`. -/
abbrev Grid := List (List Bool)

/-- Reading `this.pieces_[r][c].flipped`; `none` when the access is out of
range (the JavaScript code would throw a `TypeError`). -/
def cellAt (g : Grid) (r c : Nat) : Option Bool :=
  (g[r]?).bind fun row => row[c]?

/-- `flipPieceTween(piece)` and `flipPiece(piece)` both perform
`piece.flipped = !piece.flipped`; only the flag is modelled. -/
def flipPieceTween (flipped : Bool) : Bool := !flipped

/-- One loop iteration of the flip loops: toggle the flag of
`this.pieces_[r][c]`.  JavaScript indexing with a negative or too large
index yields `undefined` and the subsequent field access throws, so those
cases return `none` with the grid untouched. -/
def flipCell (g : Grid) (r c : Int) : Option Grid :=
  if r < 0 ∨ c < 0 then none
  else
    (g[r.toNat]?).bind fun row =>
      (row[c.toNat]?).map fun b =>
        g.set r.toNat (row.set c.toNat (flipPieceTween b))

/-- A `for` loop toggling the given cells in order.  On the first
out-of-range access the loop aborts; the error value is the grid at the
moment of the throw (cells already processed stay toggled). -/
def flipSeq : List (Int × Int) → Grid → Except Grid Grid
  | [], g => .ok g
  | p :: rest, g =>
    match flipCell g p.1 p.2 with
    | none => .error g
    | some g2 => flipSeq rest g2

/-- Cells visited by the `ROW` branch of `flipPieces`: `[numRowOrCol][i]`
for `i` below `this.pieces_.length`. -/
def rowCells (n : Nat) (idx : Int) : List (Int × Int) :=
  (List.range n).map fun (i : Nat) => (idx, (i : Int))

/-- Cells visited by the `COL` branch of `flipPieces`: `[i][numRowOrCol]`
for `i` below `this.pieces_.length`. -/
def colCells (n : Nat) (idx : Int) : List (Int × Int) :=
  (List.range n).map fun (i : Nat) => ((i : Int), idx)

/-- Cells visited by the `DIAGONAL` branch of `flipPieces`:
`[this.pieces_.length - i - 1][i]` for `i` below `this.pieces_.length`. -/
def diagCells (n : Nat) : List (Int × Int) :=
  (List.range n).map fun (i : Nat) => ((n : Int) - (i : Int) - 1, (i : Int))

/-- The mutable game state touched by the puzzle engine: the `flipped`
flags of `this.pieces_`, `this.playerEachFlipCount_` and
`this.suggestedFlipCount_` (both initialised to `0` in the constructor). -/
structure FlipState where
  pieces : Grid
  playerEachFlipCount : Nat
  suggestedFlipCount : Nat
deriving Repr, DecidableEq

/-- Outcome of a call to `flipPieces`: normal return, the explicit
`throw Error('Only Row, COL, DIAGONAL are allowed but received ...')`, or a
`TypeError` thrown by an out-of-range array access.  Error outcomes carry
the state as it is when the exception propagates out of the method. -/
inductive FlipResult where
  | ok (st : FlipState)
  | invalidAxis (msg : String) (st : FlipState)
  | outOfBounds (st : FlipState)
deriving Repr, DecidableEq

/-- Code after the axis dispatch in `flipPieces`: on normal completion of
the loop, `this.playerEachFlipCount_++` runs exactly once; on a throw it is
skipped and the partially updated grid is left behind. -/
def finishFlip (st : FlipState) (res : Except Grid Grid) : FlipResult :=
  match res with
  | .error g => .outOfBounds { st with pieces := g }
  | .ok g =>
    .ok { st with pieces := g,
                  playerEachFlipCount := st.playerEachFlipCount + 1 }

/-- `StarcastGame.prototype.flipPieces(playerSprite, rowOrCol, numRowOrCol)`
(the sprite argument is irrelevant to the puzzle state). -/
def flipPieces (st : FlipState) (rowOrCol : String) (numRowOrCol : Int) :
    FlipResult :=
  if rowOrCol = "ROW" then
    finishFlip st (flipSeq (rowCells st.pieces.length numRowOrCol) st.pieces)
  else if rowOrCol = "COL" then
    finishFlip st (flipSeq (colCells st.pieces.length numRowOrCol) st.pieces)
  else if rowOrCol = "DIAGONAL" then
    finishFlip st (flipSeq (diagCells st.pieces.length) st.pieces)
  else
    .invalidAxis ("Only Row, COL, DIAGONAL are allowed but received "
      ++ rowOrCol) st

/-- `StarcastGame.prototype.checkPuzzleIsSolved`: both nested loop bounds
are `this.pieces_.length`; returns `false` on the first flipped piece. -/
def checkPuzzleIsSolved (g : Grid) : Bool :=
  (List.range g.length).all fun i =>
    (List.range g.length).all fun j => !((cellAt g i j).getD false)

/-- `this.extraFlipsThanNecessary_ = 10`. -/
def extraFlipsThanNecessary : Int := 10

/-- The points figure printed by `checkFlipsFromPlayerMessage` (the HUD
updated after every flip):
`10 * (this.suggestedFlipCount_ + this.extraFlipsThanNecessary_ - this.playerEachFlipCount_)`. -/
def checkFlipsFromPlayerMessagePoints (suggested player : Int) : Int :=
  10 * (suggested + extraFlipsThanNecessary - player)

/-- The points figure printed by `displayCountflipsFromPlayerMessage` (the
message produced on solve via `scoreSystem`):
`10 * (this.suggestedFlipCount_ - this.playerEachFlipCount_)`. -/
def displayCountflipsFromPlayerMessagePoints (suggested player : Int) : Int :=
  10 * (suggested - player)

/-- `StarcastGame.prototype.scoreSystem`: calls
`displayCountflipsFromPlayerMessage` when the player count equals the
suggested count, and also when it exceeds it; otherwise nothing happens.
Returns whether the final score display is produced. -/
def scoreSystem (player suggested : Nat) : Bool :=
  if player = suggested then true
  else if player > suggested then true
  else false

/-- The tail of `flipPieces` after a successful flip: the final score
display appears iff `checkPuzzleIsSolved()` holds and `scoreSystem` then
fires its display. -/
def flipDisplaysFinalScore (st : FlipState) : Bool :=
  checkPuzzleIsSolved st.pieces &&
    scoreSystem st.playerEachFlipCount st.suggestedFlipCount

/-- The all-unflipped grid built by the nested sprite-creation loops of
`instantiatePuzzlePiecesAndControlButtons` (`piece.flipped = false`). -/
def mkGrid (totalRow totalCol : Nat) : Grid :=
  List.replicate totalRow (List.replicate totalCol false)

/-- The scramble operations of `instantiatePuzzlePiecesAndControlButtons`
that fire, in program order, each given by its cell list: whole rows
(inner bound `totalCol`), then whole columns (inner bound `totalRow`), then
the diagonal `[this.pieces_.length - i - 1][i]` for `i` below `totalCol`.
The random draws `Math.random() < 0.5` are made explicit choice functions. -/
def firedOps (totalRow totalCol : Nat) (rowCh colCh : Nat → Bool)
    (diagCh : Bool) : List (List (Int × Int)) :=
  (((List.range totalRow).filter rowCh).map fun (r : Nat) =>
      (List.range totalCol).map fun (c : Nat) => ((r : Int), (c : Int)))
  ++ (((List.range totalCol).filter colCh).map fun (c : Nat) =>
      (List.range totalRow).map fun (r : Nat) => ((r : Int), (c : Int)))
  ++ (if diagCh then
        [(List.range totalCol).map fun (i : Nat) =>
          ((totalRow : Int) - (i : Int) - 1, (i : Int))]
      else [])

/-- Run the scramble operations that fire: each one flips its cells with
`flipPiece` and then does `this.suggestedFlipCount_++`.  An out-of-range
access aborts with the grid at the throw. -/
def fireOps (st : FlipState) : List (List (Int × Int)) → Except Grid FlipState
  | [] => .ok st
  | L :: rest =>
    match flipSeq L st.pieces with
    | .error g => .error g
    | .ok g =>
      fireOps { st with pieces := g,
                        suggestedFlipCount := st.suggestedFlipCount + 1 } rest

/-- Grid initialisation (`instantiatePuzzlePiecesAndControlButtons`):
build the all-unflipped `totalRow`×`totalCol` grid, then apply the scramble
operations selected by the random draws. -/
def instantiatePuzzle (st : FlipState) (totalRow totalCol : Nat)
    (rowCh colCh : Nat → Bool) (diagCh : Bool) : Except Grid FlipState :=
  fireOps { st with pieces := mkGrid totalRow totalCol }
    (firedOps totalRow totalCol rowCh colCh diagCh)

/-- The state set up by the `StarcastGame` constructor: no pieces yet,
`suggestedFlipCount_ = 0`, `playerEachFlipCount_ = 0`. -/
def initialFlipState : FlipState := ⟨[], 0, 0⟩

/-- A flip command as dispatched by `flipPieces`. -/
inductive FlipOp where
  | row (idx : Int)
  | col (idx : Int)
  | diag
deriving Repr, DecidableEq

/-- The `rowOrCol` string of a flip command. -/
def opAxis : FlipOp → String
  | .row _ => "ROW"
  | .col _ => "COL"
  | .diag => "DIAGONAL"

/-- The `numRowOrCol` argument of a flip command (ignored for `DIAGONAL`;
`0` is passed as a placeholder). -/
def opIdx : FlipOp → Int
  | .row i => i
  | .col i => i
  | .diag => 0

/-- Dispatch one flip command through `flipPieces`. -/
def applyOp (st : FlipState) (op : FlipOp) : FlipResult :=
  flipPieces st (opAxis op) (opIdx op)

/-- Process a sequence of flip commands, one message at a time; a throw
aborts the remaining messages. -/
def applyOps (st : FlipState) : List FlipOp → FlipResult
  | [] => .ok st
  | op :: rest =>
    match applyOp st op with
    | .ok st2 => applyOps st2 rest
    | e => e

/-- A flip command whose index is in range for an `n`-row grid. -/
def ValidOp (n : Nat) : FlipOp → Prop
  | .row i => 0 ≤ i ∧ i < (n : Int)
  | .col i => 0 ≤ i ∧ i < (n : Int)
  | .diag => True

/-- Cell list visited by a flip command on an `n`-row grid. -/
def opCells (n : Nat) : FlipOp → List (Int × Int)
  | .row i => rowCells n i
  | .col i => colCells n i
  | .diag => diagCells n

/-- The grid has `rows` rows, each of length `cols`. -/
def RectGrid (g : Grid) (rows cols : Nat) : Prop :=
  g.length = rows ∧ ∀ row ∈ g, row.length = cols

/-- Square grid, as produced by `onAssetsLoaded_` (6×6 in the game). -/
def SquareGrid (g : Grid) : Prop :=
  RectGrid g g.length g.length

/-- A cell address within a `rows`×`cols` grid. -/
def cellInRange (p : Int × Int) (rows cols : Nat) : Prop :=
  0 ≤ p.1 ∧ p.1 < (rows : Int) ∧ 0 ≤ p.2 ∧ p.2 < (cols : Int)

/-- Number of times a cell list visits the cell `(i, j)`. -/
def toggleCount (L : List (Int × Int)) (i j : Nat) : Nat :=
  L.countP fun p => p.1 == (i : Int) && p.2 == (j : Int)

lemma parity_add (a b : Nat) :
    ((a + b) % 2 == 1) = xor (a % 2 == 1) (b % 2 == 1) := by
  rcases Nat.mod_two_eq_zero_or_one a with h | h <;>
    rcases Nat.mod_two_eq_zero_or_one b with h' | h' <;>
      simp [Nat.add_mod, h, h']

lemma natCast_beq_natCast (k j : Nat) : ((k : Int) == (j : Int)) = (k == j) := by
  by_cases h : k = j
  · subst h; simp
  · rw [beq_eq_false_iff_ne.mpr h,
      beq_eq_false_iff_ne.mpr (fun hc => h (Int.natCast_inj.mp hc))]

lemma toggleCount_nil (i j : Nat) : toggleCount [] i j = 0 := rfl

lemma toggleCount_cons (p : Int × Int) (L : List (Int × Int)) (i j : Nat) :
    toggleCount (p :: L) i j =
      toggleCount L i j +
        if p.1 = (i : Int) ∧ p.2 = (j : Int) then 1 else 0 := by
  rw [toggleCount, List.countP_cons, toggleCount]
  congr 1
  by_cases h : p.1 = (i : Int) ∧ p.2 = (j : Int)
  · rw [if_pos h, if_pos]
    rw [Bool.and_eq_true, beq_iff_eq, beq_iff_eq]
    exact h
  · rw [if_neg h, if_neg]
    rw [Bool.and_eq_true, beq_iff_eq, beq_iff_eq]
    exact h

/-- Characterisation of one successful cell toggle: the target cell is
negated, every other cell and all dimensions are untouched. -/
lemma flipCell_spec {g : Grid} {r c : Int} {g' : Grid}
    (h : flipCell g r c = some g') :
    0 ≤ r ∧ 0 ≤ c ∧ g'.length = g.length ∧
    (∀ i : Nat, (g'[i]?).map List.length = (g[i]?).map List.length) ∧
    ∀ i j : Nat, cellAt g' i j =
      if (i : Int) = r ∧ (j : Int) = c then (cellAt g i j).map not
      else cellAt g i j := by
  rw [flipCell] at h
  split at h
  · exact absurd h (by simp)
  case isFalse hneg =>
  push_neg at hneg
  obtain ⟨hr, hc⟩ := hneg
  rcases hrow : g[r.toNat]? with _ | row
  · rw [hrow] at h; exact absurd h (by simp)
  rw [hrow] at h
  simp only [Option.some_bind] at h
  rcases hb : row[c.toNat]? with _ | b
  · rw [hb] at h; exact absurd h (by simp)
  rw [hb] at h
  simp only [Option.map_some', Option.some.injEq] at h
  subst h
  obtain ⟨hrlt, hrget⟩ := List.getElem?_eq_some_iff.mp hrow
  obtain ⟨hclt, hcget⟩ := List.getElem?_eq_some_iff.mp hb
  refine ⟨hr, hc, by simp, ?_, ?_⟩
  · intro i
    by_cases hi : r.toNat = i
    · subst hi
      rw [List.getElem?_set_self hrlt, hrow]
      simp
    · rw [List.getElem?_set_ne hi]
  · intro i j
    by_cases hi : i = r.toNat
    · subst hi
      rw [cellAt, List.getElem?_set_self hrlt, cellAt, hrow]
      by_cases hj : j = c.toNat
      · subst hj
        rw [if_pos ⟨by omega, by omega⟩]
        simp only [Option.some_bind]
        rw [List.getElem?_set_self hclt, hb]
        rfl
      · rw [if_neg (by omega)]
        simp only [Option.some_bind]
        rw [List.getElem?_set_ne (fun hx => hj hx.symm)]
    · rw [cellAt, List.getElem?_set_ne (fun hx => hi hx.symm), cellAt,
        if_neg (by omega)]

/-- A cell address in range of the grid can always be toggled. -/
lemma flipCell_isSome {g : Grid} {rows cols : Nat} {p : Int × Int}
    (hlen : g.length = rows) (hrows : ∀ row ∈ g, row.length = cols)
    (hp : cellInRange p rows cols) :
    ∃ g', flipCell g p.1 p.2 = some g' := by
  obtain ⟨h1, h2, h3, h4⟩ := hp
  have hrlt : p.1.toNat < g.length := by omega
  have hrow : g[p.1.toNat]? = some g[p.1.toNat] := List.getElem?_eq_getElem hrlt
  have hrl : g[p.1.toNat].length = cols := hrows _ (List.getElem_mem hrlt)
  have hclt : p.2.toNat < g[p.1.toNat].length := by omega
  refine ⟨g.set p.1.toNat
    (g[p.1.toNat].set p.2.toNat (flipPieceTween g[p.1.toNat][p.2.toNat])), ?_⟩
  rw [flipCell, if_neg (by omega), hrow, Option.some_bind,
    List.getElem?_eq_getElem hclt, Option.map_some']

lemma xor_not_parity (b : Bool) (t : Nat) :
    xor (!b) (t % 2 == 1) = xor b ((t + 1) % 2 == 1) := by
  have h2 : (t + 1) % 2 = (t % 2 + 1) % 2 := by omega
  rw [h2]
  rcases Nat.mod_two_eq_zero_or_one t with h | h <;> rw [h] <;> cases b <;> rfl

/-- Successful run of a cell-toggle loop over in-range cells: dimensions are
preserved and each cell ends up toggled once per visit (toggle parity). -/
lemma flipSeq_ok {rows cols : Nat} :
    ∀ (L : List (Int × Int)) (g : Grid),
      g.length = rows → (∀ row ∈ g, row.length = cols) →
      (∀ p ∈ L, cellInRange p rows cols) →
      ∃ g', flipSeq L g = .ok g' ∧ g'.length = rows ∧
        (∀ row ∈ g', row.length = cols) ∧
        ∀ i j : Nat, cellAt g' i j =
          (cellAt g i j).map fun b => xor b (toggleCount L i j % 2 == 1)
  | [], g, hlen, hrows, _ => by
    refine ⟨g, rfl, hlen, hrows, ?_⟩
    intro i j
    rw [toggleCount_nil]
    cases cellAt g i j <;> simp
  | p :: rest, g, hlen, hrows, hL => by
    obtain ⟨g2, hg2⟩ := flipCell_isSome hlen hrows (hL p (by simp))
    obtain ⟨hr0, hc0, hlen2, hrl2, hcell2⟩ := flipCell_spec hg2
    have hrows2 : ∀ row ∈ g2, row.length = cols := by
      intro row hrow
      obtain ⟨i, hi⟩ := List.mem_iff_getElem?.mp hrow
      have hmap := hrl2 i
      rw [hi] at hmap
      rcases hg : g[i]? with _ | row0
      · rw [hg] at hmap; exact absurd hmap (by simp)
      · rw [hg] at hmap
        simp only [Option.map_some', Option.some.injEq] at hmap
        rw [hmap]
        exact hrows row0 (List.getElem?_mem hg)
    obtain ⟨g', hok, hl', hr', hcell'⟩ :=
      flipSeq_ok rest g2 (hlen2.trans hlen) hrows2
        (fun q hq => hL q (List.mem_cons_of_mem p hq))
    refine ⟨g', ?_, hl', hr', ?_⟩
    · rw [flipSeq, hg2]
      exact hok
    · intro i j
      rw [hcell' i j, hcell2 i j, toggleCount_cons]
      by_cases hcond : p.1 = (i : Int) ∧ p.2 = (j : Int)
      · rw [if_pos ⟨hcond.1.symm, hcond.2.symm⟩, if_pos hcond]
        cases cellAt g i j with
        | none => rfl
        | some b =>
          simp only [Option.map_some']
          rw [xor_not_parity]
      · rw [if_neg (fun hx => hcond ⟨hx.1.symm, hx.2.symm⟩), if_neg hcond,
          Nat.add_zero]

/-- Two grids that agree on every cell and have the same number of rows are
equal. -/
lemma grid_ext {g1 g2 : Grid} (hlen : g1.length = g2.length)
    (hcell : ∀ i j : Nat, cellAt g1 i j = cellAt g2 i j) : g1 = g2 := by
  apply List.ext_getElem?
  intro i
  by_cases hi : i < g1.length
  · have h1 : g1[i]? = some g1[i] := List.getElem?_eq_getElem hi
    have h2 : g2[i]? = some g2[i] := List.getElem?_eq_getElem (by omega)
    rw [h1, h2]
    congr 1
    apply List.ext_getElem?
    intro j
    have hc := hcell i j
    rw [cellAt, cellAt, h1, h2] at hc
    simpa using hc
  · rw [List.getElem?_eq_none (by omega), List.getElem?_eq_none (by omega)]

lemma countP_range_and_eq (n j : Nat) (Q : Nat → Bool) :
    (List.range n).countP (fun k => Q k && (k == j)) =
      if j < n ∧ Q j = true then 1 else 0 := by
  induction n with
  | zero => simp
  | succ m ih =>
    rw [List.range_succ, List.countP_append, ih, List.countP_cons,
      List.countP_nil]
    have hsing : (if (Q m && (m == j)) = true then 1 else 0) =
        if j = m ∧ Q j = true then 1 else 0 := by
      by_cases h3 : j = m
      · subst h3; simp
      · have hbeq : (m == j) = false :=
          beq_eq_false_iff_ne.mpr (fun hx => h3 hx.symm)
        rw [if_neg (by simp [hbeq]), if_neg (fun hx => h3 hx.1)]
    rw [hsing]
    by_cases hQ : Q j = true
    · simp only [hQ, eq_self_iff_true, and_true]
      by_cases h3 : j = m
      · subst h3
        rw [if_neg (by omega), if_pos rfl, if_pos (by omega)]
      · by_cases h1 : j < m
        · rw [if_pos h1, if_neg h3, if_pos (by omega)]
        · rw [if_neg h1, if_neg h3, if_neg (by omega)]
    · rw [if_neg (fun hx => hQ hx.2), if_neg (fun hx => hQ hx.2),
        if_neg (fun hx => hQ hx.2)]

lemma toggleCount_rowCells (n : Nat) (idx : Int) (i j : Nat) :
    toggleCount (rowCells n idx) i j =
      if (i : Int) = idx ∧ j < n then 1 else 0 := by
  rw [toggleCount, rowCells, List.countP_map]
  have hcg : ∀ k ∈ List.range n,
      (((fun p : Int × Int => p.1 == (i : Int) && p.2 == (j : Int)) ∘
          fun (k : Nat) => (idx, (k : Int))) k = true) ↔
        ((fun k : Nat => (idx == (i : Int)) && (k == j)) k = true) := by
    intro k _
    simp only [Function.comp_apply, Bool.and_eq_true, beq_iff_eq,
      Int.natCast_inj]
  rw [List.countP_congr hcg, countP_range_and_eq]
  by_cases h : (i : Int) = idx <;> by_cases h2 : j < n
  · rw [if_pos ⟨h2, beq_iff_eq.mpr h.symm⟩, if_pos ⟨h, h2⟩]
  · rw [if_neg (fun hx => h2 hx.1), if_neg (fun hx => h2 hx.2)]
  · rw [if_neg (fun hx => h (beq_iff_eq.mp hx.2).symm), if_neg (fun hx => h hx.1)]
  · rw [if_neg (fun hx => h2 hx.1), if_neg (fun hx => h hx.1)]

lemma toggleCount_colCells (n : Nat) (idx : Int) (i j : Nat) :
    toggleCount (colCells n idx) i j =
      if (j : Int) = idx ∧ i < n then 1 else 0 := by
  rw [toggleCount, colCells, List.countP_map]
  have hcg : ∀ k ∈ List.range n,
      (((fun p : Int × Int => p.1 == (i : Int) && p.2 == (j : Int)) ∘
          fun (k : Nat) => ((k : Int), idx)) k = true) ↔
        ((fun k : Nat => (idx == (j : Int)) && (k == i)) k = true) := by
    intro k _
    simp only [Function.comp_apply, Bool.and_eq_true, beq_iff_eq,
      Int.natCast_inj]
    constructor
    · exact fun hx => ⟨hx.2, hx.1⟩
    · exact fun hx => ⟨hx.2, hx.1⟩
  rw [List.countP_congr hcg, countP_range_and_eq]
  by_cases h : (j : Int) = idx <;> by_cases h2 : i < n
  · rw [if_pos ⟨h2, beq_iff_eq.mpr h.symm⟩, if_pos ⟨h, h2⟩]
  · rw [if_neg (fun hx => h2 hx.1), if_neg (fun hx => h2 hx.2)]
  · rw [if_neg (fun hx => h (beq_iff_eq.mp hx.2).symm), if_neg (fun hx => h hx.1)]
  · rw [if_neg (fun hx => h2 hx.1), if_neg (fun hx => h hx.1)]

lemma toggleCount_diagCells (n : Nat) (i j : Nat) :
    toggleCount (diagCells n) i j =
      if (i : Int) = (n : Int) - (j : Int) - 1 ∧ j < n then 1 else 0 := by
  rw [toggleCount, diagCells, List.countP_map]
  have hcg : ∀ k ∈ List.range n,
      (((fun p : Int × Int => p.1 == (i : Int) && p.2 == (j : Int)) ∘
          fun (k : Nat) => ((n : Int) - (k : Int) - 1, (k : Int))) k = true) ↔
        ((fun k : Nat =>
            (((n : Int) - (j : Int) - 1) == (i : Int)) && (k == j)) k = true) := by
    intro k _
    simp only [Function.comp_apply, Bool.and_eq_true, beq_iff_eq,
      Int.natCast_inj]
    constructor
    · rintro ⟨h1, h2⟩
      subst h2
      exact ⟨h1, rfl⟩
    · rintro ⟨h1, h2⟩
      subst h2
      exact ⟨h1, rfl⟩
  rw [List.countP_congr hcg, countP_range_and_eq]
  by_cases h : (i : Int) = (n : Int) - (j : Int) - 1 <;> by_cases h2 : j < n
  · rw [if_pos ⟨h2, beq_iff_eq.mpr h.symm⟩, if_pos ⟨h, h2⟩]
  · rw [if_neg (fun hx => h2 hx.1), if_neg (fun hx => h2 hx.2)]
  · rw [if_neg (fun hx => h (beq_iff_eq.mp hx.2).symm), if_neg (fun hx => h hx.1)]
  · rw [if_neg (fun hx => h2 hx.1), if_neg (fun hx => h hx.1)]

lemma map_xor_false (o : Option Bool) : (o.map fun b => xor b false) = o := by
  cases o <;> simp

lemma map_xor_true (o : Option Bool) : (o.map fun b => xor b true) = o.map not := by
  cases o <;> simp

lemma map_parity_zero (o : Option Bool) :
    (o.map fun b => xor b ((0 : Nat) % 2 == 1)) = o := by
  simp only [show ((0 : Nat) % 2 == 1) = false from rfl]
  exact map_xor_false o

lemma map_parity_one (o : Option Bool) :
    (o.map fun b => xor b ((1 : Nat) % 2 == 1)) = o.map not := by
  simp only [show ((1 : Nat) % 2 == 1) = true from rfl]
  exact map_xor_true o

/-- In a grid whose rows all have length `g.length`, any column index at or
beyond `g.length` reads `undefined`. -/
lemma cellAt_none_right {g : Grid}
    (hrows : ∀ row ∈ g, row.length = g.length) {i j : Nat}
    (hj : g.length ≤ j) : cellAt g i j = none := by
  rw [cellAt]
  rcases hgi : g[i]? with _ | row
  · rfl
  · rw [Option.some_bind]
    rw [List.getElem?_eq_none]
    rw [hrows row (List.getElem?_mem hgi)]
    exact hj

lemma rowCells_inRange {rows cols : Nat} {idx : Int} (h0 : 0 ≤ idx)
    (hn : idx < (rows : Int)) :
    ∀ p ∈ rowCells cols idx, cellInRange p rows cols := by
  intro p hp
  rw [rowCells] at hp
  obtain ⟨k, hk, rfl⟩ := List.mem_map.mp hp
  have := List.mem_range.mp hk
  exact ⟨h0, hn, by omega, by omega⟩

lemma colCells_inRange {rows cols : Nat} {idx : Int} (h0 : 0 ≤ idx)
    (hn : idx < (cols : Int)) :
    ∀ p ∈ colCells rows idx, cellInRange p rows cols := by
  intro p hp
  rw [colCells] at hp
  obtain ⟨k, hk, rfl⟩ := List.mem_map.mp hp
  have := List.mem_range.mp hk
  exact ⟨by omega, by omega, h0, hn⟩

lemma diagCells_inRange (n : Nat) : ∀ p ∈ diagCells n, cellInRange p n n := by
  intro p hp
  rw [diagCells] at hp
  obtain ⟨k, hk, rfl⟩ := List.mem_map.mp hp
  have := List.mem_range.mp hk
  exact ⟨by omega, by omega, by omega, by omega⟩

/-- C1: `applyFlip` with axis `ROW` and a valid row index toggles exactly the
cells of that row and changes no other cell; symmetrically, axis `COL` with a
valid column index toggles exactly the cells of that column.  (On the square
grids the game builds, `flipPieces` loops over `this.pieces_.length` cells.) -/
theorem flipPieces_row_col_exact_toggle (st : FlipState)
    (hsq : SquareGrid st.pieces) (idx : Int)
    (h0 : 0 ≤ idx) (hn : idx < (st.pieces.length : Int)) :
    (∃ st2, flipPieces st "ROW" idx = .ok st2 ∧
      ∀ i j : Nat, cellAt st2.pieces i j =
        if (i : Int) = idx then (cellAt st.pieces i j).map not
        else cellAt st.pieces i j) ∧
    (∃ st2, flipPieces st "COL" idx = .ok st2 ∧
      ∀ i j : Nat, cellAt st2.pieces i j =
        if (j : Int) = idx then (cellAt st.pieces i j).map not
        else cellAt st.pieces i j) := by
  obtain ⟨-, hrows⟩ := hsq
  constructor
  · obtain ⟨g2, hok, hlen2, hrows2, hcell⟩ :=
      flipSeq_ok (rowCells st.pieces.length idx) st.pieces rfl hrows
        (rowCells_inRange h0 hn)
    refine ⟨⟨g2, st.playerEachFlipCount + 1, st.suggestedFlipCount⟩, ?_, ?_⟩
    · rw [flipPieces, if_pos rfl, hok]
      rfl
    · intro i j
      show cellAt g2 i j = _
      rw [hcell i j, toggleCount_rowCells]
      by_cases hi : (i : Int) = idx
      · rw [if_pos hi]
        by_cases hj : j < st.pieces.length
        · rw [if_pos ⟨hi, hj⟩, map_parity_one]
        · rw [if_neg (fun hx => hj hx.2), map_parity_zero,
            cellAt_none_right hrows (by omega)]
          rfl
      · rw [if_neg (fun hx => hi hx.1), if_neg hi, map_parity_zero]
  · obtain ⟨g2, hok, hlen2, hrows2, hcell⟩ :=
      flipSeq_ok (colCells st.pieces.length idx) st.pieces rfl hrows
        (colCells_inRange h0 hn)
    refine ⟨⟨g2, st.playerEachFlipCount + 1, st.suggestedFlipCount⟩, ?_, ?_⟩
    · rw [flipPieces, if_neg (by decide), if_pos rfl, hok]
      rfl
    · intro i j
      show cellAt g2 i j = _
      rw [hcell i j, toggleCount_colCells]
      by_cases hj : (j : Int) = idx
      · rw [if_pos hj]
        by_cases hi : i < st.pieces.length
        · rw [if_pos ⟨hj, hi⟩, map_parity_one]
        · rw [if_neg (fun hx => hi hx.2), map_parity_zero, cellAt,
            List.getElem?_eq_none (by omega)]
          rfl
      · rw [if_neg (fun hx => hj hx.1), if_neg hj, map_parity_zero]

/-- C1 witness: a concrete instance of the row/column frame theorem on a
1×1 grid. -/
theorem flipPieces_row_col_exact_toggle_witness :
    (∃ st2, flipPieces ⟨[[false]], 0, 0⟩ "ROW" 0 = .ok st2 ∧
      ∀ i j : Nat, cellAt st2.pieces i j =
        if (i : Int) = 0 then (cellAt [[false]] i j).map not
        else cellAt [[false]] i j) ∧
    (∃ st2, flipPieces ⟨[[false]], 0, 0⟩ "COL" 0 = .ok st2 ∧
      ∀ i j : Nat, cellAt st2.pieces i j =
        if (j : Int) = 0 then (cellAt [[false]] i j).map not
        else cellAt [[false]] i j) :=
  flipPieces_row_col_exact_toggle ⟨[[false]], 0, 0⟩ ⟨rfl, by decide⟩ 0
    (by decide) (by decide)

/-- C2: `applyFlip` with axis `DIAGONAL` toggles exactly the anti-diagonal
cells `[n-1-i][i]` of an `n`×`n` grid, changes no other cell, and the result
does not depend on the `numRowOrCol` argument. -/
theorem flipPieces_diagonal_exact_toggle (st : FlipState)
    (hsq : SquareGrid st.pieces) :
    (∃ st2, flipPieces st "DIAGONAL" 0 = .ok st2 ∧
      ∀ i j : Nat, cellAt st2.pieces i j =
        if (i : Int) = (st.pieces.length : Int) - (j : Int) - 1
        then (cellAt st.pieces i j).map not
        else cellAt st.pieces i j) ∧
    ∀ a b : Int, flipPieces st "DIAGONAL" a = flipPieces st "DIAGONAL" b := by
  obtain ⟨-, hrows⟩ := hsq
  constructor
  · obtain ⟨g2, hok, hlen2, hrows2, hcell⟩ :=
      flipSeq_ok (diagCells st.pieces.length) st.pieces rfl hrows
        (diagCells_inRange st.pieces.length)
    refine ⟨⟨g2, st.playerEachFlipCount + 1, st.suggestedFlipCount⟩, ?_, ?_⟩
    · rw [flipPieces, if_neg (by decide), if_neg (by decide), if_pos rfl, hok]
      rfl
    · intro i j
      show cellAt g2 i j = _
      rw [hcell i j, toggleCount_diagCells]
      by_cases hi : (i : Int) = (st.pieces.length : Int) - (j : Int) - 1
      · have hj : j < st.pieces.length := by omega
        rw [if_pos ⟨hi, hj⟩, if_pos hi, map_parity_one]
      · rw [if_neg (fun hx => hi hx.1), if_neg hi, map_parity_zero]
  · intro a b
    rfl

/-- C2 witness: the diagonal theorem instantiated on a 1×1 grid. -/
theorem flipPieces_diagonal_exact_toggle_witness :
    (∃ st2, flipPieces ⟨[[false]], 0, 0⟩ "DIAGONAL" 0 = .ok st2 ∧
      ∀ i j : Nat, cellAt st2.pieces i j =
        if (i : Int) = ((1 : Nat) : Int) - (j : Int) - 1
        then (cellAt [[false]] i j).map not
        else cellAt [[false]] i j) ∧
    ∀ a b : Int,
      flipPieces ⟨[[false]], 0, 0⟩ "DIAGONAL" a =
        flipPieces ⟨[[false]], 0, 0⟩ "DIAGONAL" b :=
  flipPieces_diagonal_exact_toggle ⟨[[false]], 0, 0⟩ ⟨rfl, by decide⟩

/-- C3: any axis value outside ROW/COL/DIAGONAL makes `flipPieces` throw the
`Only Row, COL, DIAGONAL are allowed but received ...` error naming the
value, with the state (grid flags and counters) exactly as before the call. -/
theorem flipPieces_invalid_axis (st : FlipState) (ax : String) (idx : Int)
    (h1 : ax ≠ "ROW") (h2 : ax ≠ "COL") (h3 : ax ≠ "DIAGONAL") :
    flipPieces st ax idx =
      .invalidAxis ("Only Row, COL, DIAGONAL are allowed but received " ++ ax)
        st := by
  rw [flipPieces, if_neg h1, if_neg h2, if_neg h3]

/-- C3 witness: the invalid-axis theorem at the concrete axis string `X`. -/
theorem flipPieces_invalid_axis_witness :
    flipPieces ⟨[[false]], 0, 0⟩ "X" 0 =
      .invalidAxis ("Only Row, COL, DIAGONAL are allowed but received " ++ "X")
        ⟨[[false]], 0, 0⟩ :=
  flipPieces_invalid_axis ⟨[[false]], 0, 0⟩ "X" 0 (by decide) (by decide)
    (by decide)

/-- C4: `checkPuzzleIsSolved` returns true iff no cell of the (square) grid
has `flipped == true`. -/
theorem checkPuzzleIsSolved_iff_no_flipped (g : Grid) (hsq : SquareGrid g) :
    checkPuzzleIsSolved g = true ↔ ∀ i j : Nat, cellAt g i j ≠ some true := by
  obtain ⟨-, hrows⟩ := hsq
  rw [checkPuzzleIsSolved, List.all_eq_true]
  constructor
  · intro h i j
    by_cases hi : i < g.length
    · by_cases hj : j < g.length
      · have h2 := h i (List.mem_range.mpr hi)
        rw [List.all_eq_true] at h2
        have h3 := h2 j (List.mem_range.mpr hj)
        intro hc
        rw [hc] at h3
        exact absurd h3 (by simp)
      · rw [cellAt_none_right hrows (by omega)]
        simp
    · rw [cellAt, List.getElem?_eq_none (by omega)]
      simp
  · intro h i _
    rw [List.all_eq_true]
    intro j _
    rcases hc : cellAt g i j with _ | b
    · simp
    · rcases b with _ | _
      · simp
      · exact absurd hc (h i j)

/-- C4 witness: the solved-predicate equivalence on a concrete 2×2 grid with
one flipped cell (both sides of the iff are false there). -/
theorem checkPuzzleIsSolved_iff_no_flipped_witness :
    checkPuzzleIsSolved [[false, true], [false, false]] = true ↔
      ∀ i j : Nat,
        cellAt [[false, true], [false, false]] i j ≠ some true :=
  checkPuzzleIsSolved_iff_no_flipped [[false, true], [false, false]]
    ⟨rfl, by decide⟩

/-- C5 counterexample: on solve with `playerEachFlipCount_ ==
suggestedFlipCount_ == 5`, the final score display computes
`10 * (5 - 5) = 0`, not `10 * (5 + EXTRA_ALLOWANCE - 5) = 100`. -/
theorem displayCountflips_drops_allowance :
    displayCountflipsFromPlayerMessagePoints 5 5 = 0 ∧
    10 * ((5 : Int) + extraFlipsThanNecessary - 5) = 100 ∧
    displayCountflipsFromPlayerMessagePoints 5 5 ≠
      10 * ((5 : Int) + extraFlipsThanNecessary - 5) := by
  refine ⟨by decide, by decide, by decide⟩

/-- C5 (amended): the HUD score printed by `checkFlipsFromPlayerMessage`
after every flip is `10 * (suggested + EXTRA_ALLOWANCE - player)` with
`EXTRA_ALLOWANCE = 10` (hence `100` when the counts are equal), while the
final score display printed on solve by `displayCountflipsFromPlayerMessage`
omits the allowance and shows `10 * (suggested - player)` (hence `0` when
the counts are equal). -/
theorem score_formulas (s p : Int) :
    checkFlipsFromPlayerMessagePoints s p = 10 * (s + 10 - p) ∧
    displayCountflipsFromPlayerMessagePoints s p = 10 * (s - p) ∧
    checkFlipsFromPlayerMessagePoints s s = 10 * extraFlipsThanNecessary ∧
    checkFlipsFromPlayerMessagePoints s s = 100 ∧
    displayCountflipsFromPlayerMessagePoints s s = 0 := by
  refine ⟨rfl, rfl, ?_, ?_, ?_⟩
  · simp only [checkFlipsFromPlayerMessagePoints, extraFlipsThanNecessary]
    ring
  · simp only [checkFlipsFromPlayerMessagePoints, extraFlipsThanNecessary]
    ring
  · simp only [displayCountflipsFromPlayerMessagePoints]
    ring

/-- The first cell the `ROW` branch visits with an out-of-range row index
throws before toggling anything. -/
lemma flipSeq_row_oob {g : Grid} {idx : Int} (hn : 0 < g.length)
    (hout : idx < 0 ∨ (g.length : Int) ≤ idx) :
    flipSeq (rowCells g.length idx) g = .error g := by
  rcases hlen : g.length with _ | m
  · omega
  rw [rowCells, List.range_succ_eq_map, List.map_cons, flipSeq]
  have hfc : flipCell g idx (((0 : Nat) : Int)) = none := by
    rw [flipCell]
    rcases hout with h | h
    · rw [if_pos (Or.inl h)]
    · rw [if_neg (by omega), List.getElem?_eq_none (by omega)]
      rfl
  rw [hfc]

/-- The first cell the `COL` branch visits with an out-of-range column index
throws before toggling anything. -/
lemma flipSeq_col_oob {g : Grid}
    (hrows : ∀ row ∈ g, row.length = g.length) {idx : Int}
    (hn : 0 < g.length) (hout : idx < 0 ∨ (g.length : Int) ≤ idx) :
    flipSeq (colCells g.length idx) g = .error g := by
  rcases hlen : g.length with _ | m
  · omega
  rw [colCells, List.range_succ_eq_map, List.map_cons, flipSeq]
  have hfc : flipCell g (((0 : Nat) : Int)) idx = none := by
    rw [flipCell]
    rcases hout with h | h
    · rw [if_pos (Or.inr h)]
    · rw [if_neg (by omega)]
      have h0 : ((0 : Nat) : Int).toNat < g.length := by omega
      rw [List.getElem?_eq_getElem h0, Option.some_bind,
        List.getElem?_eq_none]
      · rfl
      · rw [hrows _ (List.getElem_mem h0)]
        omega
  rw [hfc]

/-- C9: a `ROW` or `COL` flip whose index is outside `0..n-1` on a nonempty
square grid throws on its first array access: no cell is toggled and
`playerEachFlipCount_` is not incremented (the state is returned intact). -/
theorem flipPieces_out_of_range_noop (st : FlipState)
    (hsq : SquareGrid st.pieces) (hn : 0 < st.pieces.length) (idx : Int)
    (hout : idx < 0 ∨ (st.pieces.length : Int) ≤ idx)
    (ax : String) (hax : ax = "ROW" ∨ ax = "COL") :
    flipPieces st ax idx = .outOfBounds st := by
  obtain ⟨-, hrows⟩ := hsq
  rcases hax with rfl | rfl
  · rw [flipPieces, if_pos rfl, flipSeq_row_oob hn hout]
    rfl
  · rw [flipPieces, if_neg (by decide), if_pos rfl,
      flipSeq_col_oob hrows hn hout]
    rfl

/-- C9 witness: flipping row 5 of a 1×1 grid throws and changes nothing. -/
theorem flipPieces_out_of_range_noop_witness :
    flipPieces ⟨[[false]], 3, 4⟩ "ROW" 5 = .outOfBounds ⟨[[false]], 3, 4⟩ :=
  flipPieces_out_of_range_noop ⟨[[false]], 3, 4⟩ ⟨rfl, by decide⟩
    (by decide) 5 (by decide) "ROW" (Or.inl rfl)

lemma scoreSystem_eq_true_iff (p s : Nat) :
    scoreSystem p s = true ↔ s ≤ p := by
  rw [scoreSystem]
  by_cases h1 : p = s
  · rw [if_pos h1]
    simp
    omega
  · rw [if_neg h1]
    by_cases h2 : p > s
    · rw [if_pos h2]
      simp
      omega
    · rw [if_neg h2]
      simp
      omega

/-- C10: after a successful flip, the final score display of `scoreSystem`
is produced iff the puzzle is solved and the player used at least as many
flips as suggested; solving with strictly fewer flips produces no final
score display. -/
theorem final_score_display_iff (st : FlipState) (ax : String) (idx : Int) :
    ∀ st2, flipPieces st ax idx = .ok st2 →
      ((flipDisplaysFinalScore st2 = true ↔
        checkPuzzleIsSolved st2.pieces = true ∧
          st2.suggestedFlipCount ≤ st2.playerEachFlipCount) ∧
      (checkPuzzleIsSolved st2.pieces = true →
        st2.playerEachFlipCount < st2.suggestedFlipCount →
          flipDisplaysFinalScore st2 = false)) := by
  intro st2 _
  constructor
  · rw [flipDisplaysFinalScore, Bool.and_eq_true, scoreSystem_eq_true_iff]
  · intro hsol hlt
    rw [flipDisplaysFinalScore, hsol, Bool.true_and]
    rcases hss : scoreSystem st2.playerEachFlipCount st2.suggestedFlipCount
    · rfl
    · have := (scoreSystem_eq_true_iff _ _).mp hss
      omega

/-- C10 witness: flipping the single row of `[[true]]` solves the puzzle with
`playerEachFlipCount_ = 1 ≥ 0 = suggestedFlipCount_`, so the display fires. -/
theorem final_score_display_iff_witness :
    (flipDisplaysFinalScore ⟨[[false]], 1, 0⟩ = true ↔
      checkPuzzleIsSolved (⟨[[false]], 1, 0⟩ : FlipState).pieces = true ∧
        (⟨[[false]], 1, 0⟩ : FlipState).suggestedFlipCount ≤
          (⟨[[false]], 1, 0⟩ : FlipState).playerEachFlipCount) ∧
    (checkPuzzleIsSolved (⟨[[false]], 1, 0⟩ : FlipState).pieces = true →
      (⟨[[false]], 1, 0⟩ : FlipState).playerEachFlipCount <
          (⟨[[false]], 1, 0⟩ : FlipState).suggestedFlipCount →
        flipDisplaysFinalScore ⟨[[false]], 1, 0⟩ = false) :=
  final_score_display_iff ⟨[[true]], 0, 0⟩ "ROW" 0 ⟨[[false]], 1, 0⟩ (by decide)

lemma finishFlip_ok {st : FlipState} {res : Except Grid Grid}
    {st2 : FlipState} (h : finishFlip st res = .ok st2) :
    st2.playerEachFlipCount = st.playerEachFlipCount + 1 ∧
    st2.suggestedFlipCount = st.suggestedFlipCount := by
  rcases res with g | g
  · exact FlipResult.noConfusion h
  · have h2 : FlipResult.ok
        ⟨g, st.playerEachFlipCount + 1, st.suggestedFlipCount⟩ = .ok st2 := h
    injection h2 with h3
    rw [← h3]
    exact ⟨rfl, rfl⟩

lemma finishFlip_outOfBounds {st : FlipState} {res : Except Grid Grid}
    {st2 : FlipState} (h : finishFlip st res = .outOfBounds st2) :
    st2.playerEachFlipCount = st.playerEachFlipCount ∧
    st2.suggestedFlipCount = st.suggestedFlipCount := by
  rcases res with g | g
  · have h2 : FlipResult.outOfBounds
        ⟨g, st.playerEachFlipCount, st.suggestedFlipCount⟩ =
          .outOfBounds st2 := h
    injection h2 with h3
    rw [← h3]
    exact ⟨rfl, rfl⟩
  · exact FlipResult.noConfusion h

/-- The four possible control paths of `flipPieces`. -/
lemma flipPieces_dispatch (st : FlipState) (ax : String) (idx : Int) :
    flipPieces st ax idx =
        finishFlip st (flipSeq (rowCells st.pieces.length idx) st.pieces) ∨
    flipPieces st ax idx =
        finishFlip st (flipSeq (colCells st.pieces.length idx) st.pieces) ∨
    flipPieces st ax idx =
        finishFlip st (flipSeq (diagCells st.pieces.length) st.pieces) ∨
    flipPieces st ax idx =
        .invalidAxis ("Only Row, COL, DIAGONAL are allowed but received "
          ++ ax) st := by
  rw [flipPieces]
  by_cases h1 : ax = "ROW"
  · rw [if_pos h1]
    exact Or.inl rfl
  rw [if_neg h1]
  by_cases h2 : ax = "COL"
  · rw [if_pos h2]
    exact Or.inr (Or.inl rfl)
  rw [if_neg h2]
  by_cases h3 : ax = "DIAGONAL"
  · rw [if_pos h3]
    exact Or.inr (Or.inr (Or.inl rfl))
  rw [if_neg h3]
  exact Or.inr (Or.inr (Or.inr rfl))

lemma fireOps_ok_player : ∀ (ops : List (List (Int × Int)))
    (st st2 : FlipState), fireOps st ops = .ok st2 →
    st2.playerEachFlipCount = st.playerEachFlipCount
  | [], st, st2, h => by
    have h2 : Except.ok (ε := Grid) st = .ok st2 := h
    injection h2 with h3
    rw [← h3]
  | L :: rest, st, st2, h => by
    rw [fireOps] at h
    rcases hfs : flipSeq L st.pieces with g | g
    · rw [hfs] at h
      exact Except.noConfusion h
    · rw [hfs] at h
      exact fireOps_ok_player rest
        ⟨g, st.playerEachFlipCount, st.suggestedFlipCount + 1⟩ st2 h

/-- One valid flip command completes, preserves the square shape, counts one
player flip, and toggles each cell once per visit of its cell list. -/
lemma applyOp_ok (st : FlipState) (op : FlipOp) (hsq : SquareGrid st.pieces)
    (hv : ValidOp st.pieces.length op) :
    ∃ st2, applyOp st op = .ok st2 ∧
      st2.pieces.length = st.pieces.length ∧ SquareGrid st2.pieces ∧
      st2.playerEachFlipCount = st.playerEachFlipCount + 1 ∧
      st2.suggestedFlipCount = st.suggestedFlipCount ∧
      ∀ i j : Nat, cellAt st2.pieces i j =
        (cellAt st.pieces i j).map fun b =>
          xor b (toggleCount (opCells st.pieces.length op) i j % 2 == 1) := by
  obtain ⟨-, hrows⟩ := hsq
  rcases op with idx | idx | _
  · obtain ⟨h0, hn⟩ := hv
    obtain ⟨g2, hok, hlen2, hrows2, hcell⟩ :=
      flipSeq_ok (rowCells st.pieces.length idx) st.pieces rfl hrows
        (rowCells_inRange h0 hn)
    refine ⟨⟨g2, st.playerEachFlipCount + 1, st.suggestedFlipCount⟩, ?_,
      hlen2, ⟨rfl, fun row hr => by rw [hlen2]; exact hrows2 row hr⟩,
      rfl, rfl, hcell⟩
    rw [applyOp, opAxis, opIdx, flipPieces, if_pos rfl, hok]
    rfl
  · obtain ⟨h0, hn⟩ := hv
    obtain ⟨g2, hok, hlen2, hrows2, hcell⟩ :=
      flipSeq_ok (colCells st.pieces.length idx) st.pieces rfl hrows
        (colCells_inRange h0 hn)
    refine ⟨⟨g2, st.playerEachFlipCount + 1, st.suggestedFlipCount⟩, ?_,
      hlen2, ⟨rfl, fun row hr => by rw [hlen2]; exact hrows2 row hr⟩,
      rfl, rfl, hcell⟩
    rw [applyOp, opAxis, opIdx, flipPieces, if_neg (by decide), if_pos rfl,
      hok]
    rfl
  · obtain ⟨g2, hok, hlen2, hrows2, hcell⟩ :=
      flipSeq_ok (diagCells st.pieces.length) st.pieces rfl hrows
        (diagCells_inRange st.pieces.length)
    refine ⟨⟨g2, st.playerEachFlipCount + 1, st.suggestedFlipCount⟩, ?_,
      hlen2, ⟨rfl, fun row hr => by rw [hlen2]; exact hrows2 row hr⟩,
      rfl, rfl, hcell⟩
    rw [applyOp, opAxis, opIdx, flipPieces, if_neg (by decide),
      if_neg (by decide), if_pos rfl, hok]
    rfl

/-- C6: every completed `flipPieces` call increments `playerEachFlipCount_`
by exactly one, whichever axis it used, and leaves `suggestedFlipCount_`
alone; a call that throws does not change `playerEachFlipCount_`, and grid
initialisation does not change it either. -/
theorem flipPieces_playerFlipCount (st : FlipState) (ax : String) (idx : Int) :
    (∀ st2, flipPieces st ax idx = .ok st2 →
      st2.playerEachFlipCount = st.playerEachFlipCount + 1 ∧
      st2.suggestedFlipCount = st.suggestedFlipCount) ∧
    (∀ msg st2, flipPieces st ax idx = .invalidAxis msg st2 → st2 = st) ∧
    (∀ st2, flipPieces st ax idx = .outOfBounds st2 →
      st2.playerEachFlipCount = st.playerEachFlipCount) ∧
    (∀ totalRow totalCol rowCh colCh diagCh st2,
      instantiatePuzzle st totalRow totalCol rowCh colCh diagCh = .ok st2 →
      st2.playerEachFlipCount = st.playerEachFlipCount) ∧
    (∀ op : FlipOp, SquareGrid st.pieces → ValidOp st.pieces.length op →
      ∃ st2, applyOp st op = .ok st2 ∧
        st2.playerEachFlipCount = st.playerEachFlipCount + 1) := by
  refine ⟨?_, ?_, ?_, ?_, ?_⟩
  · intro st2 h
    rcases flipPieces_dispatch st ax idx with hd | hd | hd | hd <;>
      rw [hd] at h
    · exact finishFlip_ok h
    · exact finishFlip_ok h
    · exact finishFlip_ok h
    · exact FlipResult.noConfusion h
  · intro msg st2 h
    rcases flipPieces_dispatch st ax idx with hd | hd | hd | hd <;>
      rw [hd] at h
    · rcases hfs : flipSeq (rowCells st.pieces.length idx) st.pieces with g | g <;>
        rw [hfs] at h <;> exact FlipResult.noConfusion h
    · rcases hfs : flipSeq (colCells st.pieces.length idx) st.pieces with g | g <;>
        rw [hfs] at h <;> exact FlipResult.noConfusion h
    · rcases hfs : flipSeq (diagCells st.pieces.length) st.pieces with g | g <;>
        rw [hfs] at h <;> exact FlipResult.noConfusion h
    · injection h with h1 h2
      exact h2.symm
  · intro st2 h
    rcases flipPieces_dispatch st ax idx with hd | hd | hd | hd <;>
      rw [hd] at h
    · exact (finishFlip_outOfBounds h).1
    · exact (finishFlip_outOfBounds h).1
    · exact (finishFlip_outOfBounds h).1
    · exact FlipResult.noConfusion h
  · intro totalRow totalCol rowCh colCh diagCh st2 h
    rw [instantiatePuzzle] at h
    exact fireOps_ok_player (firedOps totalRow totalCol rowCh colCh diagCh)
      ⟨mkGrid totalRow totalCol, st.playerEachFlipCount,
        st.suggestedFlipCount⟩ st2 h
  · intro op hsq hv
    obtain ⟨st2, hok, -, -, hpl, -, -⟩ := applyOp_ok st op hsq hv
    exact ⟨st2, hok, hpl⟩

/-- C6 witness: one row flip on a 1×1 grid takes the player count from 0
to 1 and keeps the suggested count at 0. -/
theorem flipPieces_playerFlipCount_witness :
    (⟨[[true]], 1, 0⟩ : FlipState).playerEachFlipCount =
      (⟨[[false]], 0, 0⟩ : FlipState).playerEachFlipCount + 1 ∧
    (⟨[[true]], 1, 0⟩ : FlipState).suggestedFlipCount =
      (⟨[[false]], 0, 0⟩ : FlipState).suggestedFlipCount :=
  (flipPieces_playerFlipCount ⟨[[false]], 0, 0⟩ "ROW" 0).1
    ⟨[[true]], 1, 0⟩ (by decide)

lemma fireOps_ok_of_inRange {rows cols : Nat} :
    ∀ (ops : List (List (Int × Int))) (st : FlipState),
      st.pieces.length = rows → (∀ row ∈ st.pieces, row.length = cols) →
      (∀ L ∈ ops, ∀ p ∈ L, cellInRange p rows cols) →
      ∃ st2, fireOps st ops = .ok st2 ∧
        st2.suggestedFlipCount = st.suggestedFlipCount + ops.length ∧
        st2.playerEachFlipCount = st.playerEachFlipCount ∧
        st2.pieces.length = rows ∧ ∀ row ∈ st2.pieces, row.length = cols
  | [], st, hlen, hrows, _ =>
    ⟨st, rfl, (Nat.add_zero _).symm, rfl, hlen, hrows⟩
  | L :: rest, st, hlen, hrows, hops => by
    obtain ⟨g2, hok, hlen2, hrows2, -⟩ :=
      flipSeq_ok L st.pieces hlen hrows (hops L (by simp))
    obtain ⟨st2, hok2, hsug, hpl, hl2, hr2⟩ :=
      fireOps_ok_of_inRange rest
        ⟨g2, st.playerEachFlipCount, st.suggestedFlipCount + 1⟩ hlen2 hrows2
        (fun L2 hL2 => hops L2 (List.mem_cons_of_mem L hL2))
    refine ⟨st2, ?_, ?_, hpl, hl2, hr2⟩
    · rw [fireOps, hok]
      exact hok2
    · rw [hsug]
      simp only [List.length_cons]
      omega

lemma firedOps_inRange {totalRow totalCol : Nat} (hct : totalCol ≤ totalRow)
    (rowCh colCh : Nat → Bool) (diagCh : Bool) :
    ∀ L ∈ firedOps totalRow totalCol rowCh colCh diagCh,
      ∀ p ∈ L, cellInRange p totalRow totalCol := by
  intro L hL
  rw [firedOps] at hL
  rcases List.mem_append.mp hL with h12 | h3
  · rcases List.mem_append.mp h12 with h1 | h2
    · obtain ⟨r, hr, rfl⟩ := List.mem_map.mp h1
      have hrlt := List.mem_range.mp (List.mem_of_mem_filter hr)
      exact rowCells_inRange (by omega) (by omega)
    · obtain ⟨c, hc, rfl⟩ := List.mem_map.mp h2
      have hclt := List.mem_range.mp (List.mem_of_mem_filter hc)
      exact colCells_inRange (by omega) (by omega)
  · rcases hd : diagCh
    · rw [hd] at h3
      exact absurd h3 (by simp)
    · rw [hd, if_pos rfl] at h3
      rw [List.mem_singleton] at h3
      subst h3
      intro p hp
      obtain ⟨k, hk, rfl⟩ := List.mem_map.mp hp
      have := List.mem_range.mp hk
      exact ⟨by omega, by omega, by omega, by omega⟩

lemma firedOps_length (totalRow totalCol : Nat) (rowCh colCh : Nat → Bool)
    (diagCh : Bool) :
    (firedOps totalRow totalCol rowCh colCh diagCh).length =
      (List.range totalRow).countP rowCh +
        (List.range totalCol).countP colCh +
        (if diagCh then 1 else 0) := by
  rw [firedOps, List.length_append, List.length_append, List.length_map,
    List.length_map, ← List.countP_eq_length_filter,
    ← List.countP_eq_length_filter]
  congr 1
  rcases diagCh <;> rfl

/-- C8: after initialising a `totalRow`×`totalCol` grid (the game always
uses a square one; `totalCol ≤ totalRow` keeps the diagonal scramble in
range), `suggestedFlipCount_` equals the number of scramble operations that
fired — one increment per fired row, column, or diagonal flip — which lies
between `0` and `totalRow + totalCol + 1`. -/
theorem instantiatePuzzle_suggestedFlipCount (totalRow totalCol : Nat)
    (hct : totalCol ≤ totalRow) (rowCh colCh : Nat → Bool) (diagCh : Bool) :
    ∃ st2, instantiatePuzzle initialFlipState totalRow totalCol
        rowCh colCh diagCh = .ok st2 ∧
      st2.suggestedFlipCount =
        (firedOps totalRow totalCol rowCh colCh diagCh).length ∧
      st2.suggestedFlipCount =
        (List.range totalRow).countP rowCh +
          (List.range totalCol).countP colCh +
          (if diagCh then 1 else 0) ∧
      st2.suggestedFlipCount ≤ totalRow + totalCol + 1 := by
  obtain ⟨st2, hok, hsug, -, -, -⟩ :=
    @fireOps_ok_of_inRange totalRow totalCol
      (firedOps totalRow totalCol rowCh colCh diagCh)
      ⟨mkGrid totalRow totalCol, 0, 0⟩
      (List.length_replicate totalRow _)
      (fun row hrow => by
        rw [List.eq_of_mem_replicate hrow]
        exact List.length_replicate totalCol _)
      (firedOps_inRange hct rowCh colCh diagCh)
  have hlen := firedOps_length totalRow totalCol rowCh colCh diagCh
  have hb1 : (List.range totalRow).countP rowCh ≤ totalRow := by
    have := @List.countP_le_length Nat rowCh (List.range totalRow)
    rw [List.length_range] at this
    exact this
  have hb2 : (List.range totalCol).countP colCh ≤ totalCol := by
    have := @List.countP_le_length Nat colCh (List.range totalCol)
    rw [List.length_range] at this
    exact this
  refine ⟨st2, ?_, ?_, ?_, ?_⟩
  · rw [instantiatePuzzle]
    exact hok
  · rw [hsug, Nat.zero_add]
  · rw [hsug, Nat.zero_add, hlen]
  · rw [hsug, Nat.zero_add, hlen]
    rcases diagCh <;> simp <;> omega

/-- C8 witness: a concrete 2×2 initialisation in which row 0, both columns
and the diagonal fire, giving `suggestedFlipCount_ = 4 ≤ 2 + 2 + 1`. -/
theorem instantiatePuzzle_suggestedFlipCount_witness :
    ∃ st2, instantiatePuzzle initialFlipState 2 2
        (fun r => r == 0) (fun _ => true) true = .ok st2 ∧
      st2.suggestedFlipCount =
        (firedOps 2 2 (fun r => r == 0) (fun _ => true) true).length ∧
      st2.suggestedFlipCount =
        (List.range 2).countP (fun r => r == 0) +
          (List.range 2).countP (fun _ => true) +
          (if true then 1 else 0) ∧
      st2.suggestedFlipCount ≤ 2 + 2 + 1 :=
  instantiatePuzzle_suggestedFlipCount 2 2 (by decide)
    (fun r => r == 0) (fun _ => true) true

/-- Processing a list of valid flip commands completes and toggles each cell
by the parity of the total number of visits over all commands. -/
lemma applyOps_ok : ∀ (ops : List FlipOp) (st : FlipState),
    SquareGrid st.pieces → (∀ op ∈ ops, ValidOp st.pieces.length op) →
    ∃ st2, applyOps st ops = .ok st2 ∧
      st2.pieces.length = st.pieces.length ∧ SquareGrid st2.pieces ∧
      st2.playerEachFlipCount = st.playerEachFlipCount + ops.length ∧
      st2.suggestedFlipCount = st.suggestedFlipCount ∧
      ∀ i j : Nat, cellAt st2.pieces i j =
        (cellAt st.pieces i j).map fun b =>
          xor b (((ops.map fun op =>
            toggleCount (opCells st.pieces.length op) i j).sum) % 2 == 1)
  | [], st, hsq, _ =>
    ⟨st, rfl, rfl, hsq, (Nat.add_zero _).symm, rfl, by
      intro i j
      exact (map_parity_zero _).symm⟩
  | op :: ops, st, hsq, hv => by
    obtain ⟨st1, hok1, hlen1, hsq1, hpl1, hsug1, hcell1⟩ :=
      applyOp_ok st op hsq (hv op (by simp))
    obtain ⟨st2, hok2, hlen2, hsq2, hpl2, hsug2, hcell2⟩ :=
      applyOps_ok ops st1 hsq1
        (fun o ho => by rw [hlen1]; exact hv o (List.mem_cons_of_mem op ho))
    simp only [hlen1] at hcell2
    refine ⟨st2, ?_, hlen2.trans hlen1, hsq2, ?_, hsug2.trans hsug1, ?_⟩
    · rw [applyOps, hok1]
      exact hok2
    · rw [hpl2, hpl1, List.length_cons]
      omega
    · intro i j
      rw [hcell2 i j, hcell1 i j, Option.map_map, List.map_cons,
        List.sum_cons]
      cases cellAt st.pieces i j
      · rfl
      · simp only [Option.map_some', Function.comp_apply]
        rw [parity_add, ← Bool.xor_assoc]

lemma sum_map_even_of_count_even {α : Type} [DecidableEq α] (l : List α)
    (f : α → Nat) (h : ∀ a, l.count a % 2 = 0) : (l.map f).sum % 2 = 0 := by
  have h3 := Finset.sum_multiset_map_count (l : Multiset α) f
  have hdvd : (2 : Nat) ∣ ((l : Multiset α).map f).sum := by
    rw [h3]
    apply Finset.dvd_sum
    intro m _
    rw [Multiset.coe_count, smul_eq_mul]
    exact dvd_mul_of_dvd_left (Nat.dvd_of_mod_eq_zero (h m)) _
  rw [Multiset.map_coe, Multiset.sum_coe] at hdvd
  exact Nat.dvd_iff_mod_eq_zero.mp hdvd

/-- C7: each valid flip is a self-inverse toggle — applying it twice
restores every `flipped` flag — and any sequence of valid flips in which
every distinct flip occurs an even number of times leaves the flags
unchanged, hence maps a solved grid to a solved grid. -/
theorem flipPieces_self_inverse (st : FlipState)
    (hsq : SquareGrid st.pieces) :
    (∀ op : FlipOp, ValidOp st.pieces.length op →
      ∃ st1 st2, applyOp st op = .ok st1 ∧ applyOp st1 op = .ok st2 ∧
        st2.pieces = st.pieces) ∧
    (∀ ops : List FlipOp, (∀ op ∈ ops, ValidOp st.pieces.length op) →
      (∀ op : FlipOp, ops.count op % 2 = 0) →
      ∃ st2, applyOps st ops = .ok st2 ∧ st2.pieces = st.pieces ∧
        (checkPuzzleIsSolved st.pieces = true →
          checkPuzzleIsSolved st2.pieces = true)) := by
  constructor
  · intro op hv
    obtain ⟨st1, hok1, hlen1, hsq1, -, -, hcell1⟩ := applyOp_ok st op hsq hv
    obtain ⟨st2, hok2, hlen2, hsq2, -, -, hcell2⟩ :=
      applyOp_ok st1 op hsq1 (by rw [hlen1]; exact hv)
    refine ⟨st1, st2, hok1, hok2, ?_⟩
    apply grid_ext (by omega)
    intro i j
    simp only [hlen1] at hcell2
    rw [hcell2 i j, hcell1 i j, Option.map_map]
    cases cellAt st.pieces i j
    · rfl
    · simp only [Option.map_some', Function.comp_apply]
      rw [Bool.xor_assoc, Bool.xor_self, Bool.xor_false]
  · intro ops hv hev
    obtain ⟨st2, hok, hlen, hsq2, -, -, hcell⟩ := applyOps_ok ops st hsq hv
    have heq : st2.pieces = st.pieces := by
      apply grid_ext (by omega)
      intro i j
      rw [hcell i j]
      have hz := sum_map_even_of_count_even ops
        (fun op => toggleCount (opCells st.pieces.length op) i j) hev
      have hb : (((ops.map fun op =>
          toggleCount (opCells st.pieces.length op) i j).sum) % 2 == 1) =
            false := by
        rw [hz]
        rfl
      simp only [hb]
      exact map_xor_false _
    exact ⟨st2, hok, heq, fun hs => by rw [heq]; exact hs⟩

/-- C7 witness: flipping row 0 of a 1×1 grid twice restores the grid. -/
theorem flipPieces_self_inverse_witness :
    ∃ st1 st2, applyOp ⟨[[false]], 0, 0⟩ (.row 0) = .ok st1 ∧
      applyOp st1 (.row 0) = .ok st2 ∧
      st2.pieces = (⟨[[false]], 0, 0⟩ : FlipState).pieces :=
  (flipPieces_self_inverse ⟨[[false]], 0, 0⟩ ⟨rfl, by decide⟩).1
    (.row 0) ⟨by decide, by decide⟩

end Starcast
